import Mathlib

/-! Shallow embedding of the session & context manager of the Gemini
code-analysis app (`src/main.py`): the extractor, the upload aggregator, session
key derivation, the session store with one-time seeding, the streaming
responder, and the reset controller.  Python dicts are modelled as
insertion-ordered association lists, bytes as `List Nat`, and fallible reads as
`Except String`. -/

/-- One transcript message: a `(role, content)` pair, mirroring the
`(role, text)` tuples stored in the Gradio `chatbot` list. -/
abbrev Msg := String × String

/-- The transcript (the `chatbot` list in the source). -/
abbrev Chat := List Msg

/-- An extracted-file set: insertion-ordered mapping from file name to text
content, modelling the Python dict returned by the extractors. -/
abbrev FileSet := List (String × String)

/-- The global `EXTRACTED_FILES` store: insertion-ordered mapping from artifact
base name to its extracted file set. -/
abbrev FileStore := List (String × FileSet)

/-- Lookup in an insertion-ordered mapping (Python `d.get(k)` / `k in d`). -/
def dictGet {α : Type} : List (String × α) → String → Option α
  | [], _ => none
  | (k, v) :: rest, key => if k = key then some v else dictGet rest key

/-- Python dict assignment `d[k] = v`: replaces the value in place when the key
is present, otherwise appends (preserving insertion order). -/
def dictInsert {α : Type} : List (String × α) → String → α → List (String × α)
  | [], key, v => [(key, v)]
  | (k, w) :: rest, key, v =>
    if k = key then (key, v) :: rest else (k, w) :: dictInsert rest key v

/-- Python `",".join l`. -/
def joinComma : List String → String
  | [] => ""
  | [s] => s
  | s :: rest => s ++ "," ++ joinComma rest

/-- Python `"\n".join l`. -/
def joinNewline : List String → String
  | [] => ""
  | [s] => s
  | s :: rest => s ++ "\n" ++ joinNewline rest

/-- Concatenation of a list of strings, in order. -/
def concatAll : List String → String
  | [] => ""
  | s :: rest => s ++ concatAll rest

/-- Code-point comparison of character lists (Python's `<=` on `str`), written
with structural recursion so that it evaluates inside the kernel. -/
def lexLe : List Char → List Char → Bool
  | [], _ => true
  | _ :: _, [] => false
  | a :: as, b :: bs =>
    if a.toNat < b.toNat then true
    else if b.toNat < a.toNat then false
    else lexLe as bs

/-- Python `sorted(l)` on strings: ascending stable sort by code-point order. -/
def sortStrings (l : List String) : List String :=
  List.insertionSort (fun a b => lexLe a.data b.data = true) l

/-- Auxiliary scan for Python's substring test `needle in hay`. -/
def pyInAux (needle : List Char) : List Char → Bool
  | [] => needle.isEmpty
  | c :: rest => needle.isPrefixOf (c :: rest) || pyInAux needle rest

/-- Python's substring containment `needle in hay`. -/
def pyIn (needle hay : String) : Bool := pyInAux needle.data hay.data

/-- Characters of the last path component (after the last `'/'`), mirroring
`os.path.basename` on POSIX paths. -/
def lastComponentAux : List Char → List Char → List Char
  | [], acc => acc.reverse
  | c :: rest, acc =>
    if c = '/' then lastComponentAux rest [] else lastComponentAux rest (c :: acc)

/-- `os.path.basename` (POSIX). -/
def basename (p : String) : String := ⟨lastComponentAux p.data []⟩

/-- The suffix starting at the last `'.'` of the list, if any (mirrors
`str.rfind('.')`: the recursion prefers a dot found further right). -/
def extSuffix : List Char → Option (List Char)
  | [] => none
  | c :: rest =>
    match extSuffix rest with
    | some e => some e
    | none => if c = '.' then some (c :: rest) else none

/-- `os.path.splitext(p)[1]`: the extension of the last path component; leading
dots of the component never start an extension (`".bashrc"` has extension `""`). -/
def splitextExt (p : String) : String :=
  match extSuffix ((lastComponentAux p.data []).dropWhile (fun c => c = '.')) with
  | some e => ⟨e⟩
  | none => ""

/-- `os.path.splitext(p)[1].lower()`; the lowering is ASCII, which covers every
extension the program compares against. -/
def extLower (p : String) : String := ⟨(splitextExt p).data.map Char.toLower⟩

/-- The fixed allow-list `TEXT_EXTENSIONS` from the source. -/
def TEXT_EXTENSIONS : List String :=
  [".bat", ".c", ".cfg", ".conf", ".cpp", ".cs", ".css", ".go", ".h", ".html",
   ".ini", ".java", ".js", ".json", ".jsx", ".md", ".php", ".ps1", ".py", ".rb",
   ".rs", ".sh", ".toml", ".ts", ".tsx", ".txt", ".xml", ".yaml", ".yml"]

/-- A member of a ZIP archive: its stored path and the outcome of
`zip_ref.open(file_info)` followed by `.read()` — either the raw bytes or the
text of the exception raised. -/
structure ZipEntry where
  filename : String
  read : Except String (List Nat)

/-- Whether `extract_text_from_zip` keeps this entry: not a directory entry and
its lower-cased extension is in the allow-list. -/
def zipEntryKept (e : ZipEntry) : Bool :=
  !(e.filename.data.getLast? == some '/') && TEXT_EXTENSIONS.contains (extLower e.filename)

/-- Content recorded for a kept entry: the UTF-8 decoding with invalid-byte
substitution on success, the diagnostic string on a read failure. -/
def zipEntryContent (decode : List Nat → String) (e : ZipEntry) : String :=
  match e.read with
  | .ok bytes => decode bytes
  | .error msg => "Error extracting file: " ++ msg

/-- Loop of `extract_text_from_zip`, accumulating into the `text_contents` dict. -/
def zipLoop (decode : List Nat → String) : List ZipEntry → FileSet → FileSet
  | [], acc => acc
  | e :: rest, acc =>
    if e.filename.data.getLast? == some '/' then zipLoop decode rest acc
    else if TEXT_EXTENSIONS.contains (extLower e.filename) then
      zipLoop decode rest (dictInsert acc e.filename (zipEntryContent decode e))
    else zipLoop decode rest acc

/-- `extract_text_from_zip` (lines 59–90).  `decode` models
`bytes.decode("utf-8", errors="replace")`, a total function (invalid bytes are
substituted with U+FFFD, never raising). -/
def extract_text_from_zip (decode : List Nat → String) (entries : List ZipEntry) : FileSet :=
  zipLoop decode entries []

/-- `extract_text_from_single_file` (lines 100–122); `fileRead` models the
outcome of `open(file_path)` followed by `.read()` at the path. -/
def extract_text_from_single_file (decode : List Nat → String) (path : String)
    (fileRead : Except String (List Nat)) : FileSet :=
  let filename := basename path
  if TEXT_EXTENSIONS.contains (extLower filename) then
    match fileRead with
    | .ok bytes => [(filename, decode bytes)]
    | .error msg => [(filename, "Error reading file: " ++ msg)]
  else []

/-- An uploaded artifact: its temporary path plus the filesystem behaviour at
that path — the member list observed when it is opened as a ZIP archive, and
the byte-read outcome when it is opened as a single file.  `upload_zip`
consults exactly one of the two, according to the path's extension. -/
structure UploadedFile where
  path : String
  zipEntries : List ZipEntry
  fileRead : Except String (List Nat)

/-- Whether the artifact is processed through the ZIP branch (`file_ext == ".zip"`). -/
def isZipUpload (f : UploadedFile) : Bool := extLower (basename f.path) == ".zip"

/-- Extraction result for one artifact, dispatching on the extension exactly as
`upload_zip` does. -/
def extractArtifact (decode : List Nat → String) (f : UploadedFile) : FileSet :=
  if isZipUpload f then extract_text_from_zip decode f.zipEntries
  else extract_text_from_single_file decode f.path f.fileRead

/-- The single-artifact summary when no text content was extracted. -/
def singleEmptyMsg (fileTypeMsg filename : String) : String :=
  "<p>" ++ fileTypeMsg ++ " uploaded: " ++ filename ++
    ", but no text content was found or the file format is not supported.</p>"

/-- The single-artifact summary naming the artifact and its extracted files. -/
def singleNonEmptyMsg (fileTypeMsg filename : String) (count : Nat) (fileList : String) : String :=
  "<p>" ++ fileTypeMsg ++ " uploaded: " ++ filename ++ "</p><p>Extracted " ++
    toString count ++ " text file(s):</p><pre>" ++ fileList ++ "</pre>"

/-- The combined multi-artifact summary. -/
def multiMsg (fileTypesStr : String) (processed extracted : Nat) (fileList : String) : String :=
  "<p>📚 Multiple " ++ fileTypesStr ++ " uploaded (" ++ toString processed ++
    " files)</p><p>Extracted " ++ toString extracted ++
    " text file(s) in total</p><p>Uploaded files:</p><pre>" ++ fileList ++ "</pre>"

/-- Accumulator of the multi-artifact loop in `upload_zip`: the store, the two
counters, and the `file_types` set (represented by its two possible members). -/
structure UploadAcc where
  store : FileStore
  processed : Nat
  extracted : Nat
  hasZip : Bool
  hasText : Bool

/-- The multi-artifact loop of `upload_zip` (lines 144–162): the store and the
`total_files_extracted` counter change only when the artifact's extraction is
non-empty, `total_files_processed` always increments, and the `file_types` set
gains `"zip"` or `"text"` according to the branch taken. -/
def uploadLoop (decode : List Nat → String) : List UploadedFile → UploadAcc → UploadAcc
  | [], acc => acc
  | f :: rest, acc =>
    uploadLoop decode rest
      ⟨(if (extractArtifact decode f).isEmpty then acc.store
        else dictInsert acc.store (basename f.path) (extractArtifact decode f)),
       acc.processed + 1,
       (if (extractArtifact decode f).isEmpty then acc.extracted
        else acc.extracted + (extractArtifact decode f).length),
       acc.hasZip || isZipUpload f,
       acc.hasText || !isZipUpload f⟩

/-- `file_types_str` (lines 165–169): `len(file_types) > 1` means both kinds occurred. -/
def fileTypesStrOf (hasZip hasText : Bool) : String :=
  if hasZip && hasText then "files" else if hasZip then "ZIP files" else "text files"

/-- The `file_list` of the multi-artifact summary. -/
def fileListOf (files : List UploadedFile) : String :=
  joinNewline (files.map (fun f => "- " ++ basename f.path))

/-- `upload_zip` (lines 125–208), returning the updated `EXTRACTED_FILES` store
and transcript. -/
def upload_zip (decode : List Nat → String) (files : List UploadedFile)
    (store : FileStore) (chatbot : Chat) : FileStore × Chat :=
  match files with
  | [] => (store, chatbot)
  | [f] =>
    let filename := basename f.path
    let ef := extractArtifact decode f
    let ftm := if isZipUpload f then "📦 ZIP file" else "📄 File"
    if ef.isEmpty then
      (store, chatbot ++ [("user", singleEmptyMsg ftm filename)])
    else
      (dictInsert store filename ef,
       chatbot ++ [("user",
         singleNonEmptyMsg ftm filename ef.length
           (joinNewline (ef.map (fun p => "- " ++ p.1))))])
  | f1 :: f2 :: rest =>
    let acc := uploadLoop decode (f1 :: f2 :: rest) ⟨store, 0, 0, false, false⟩
    (acc.store,
     chatbot ++ [("user",
       multiMsg (fileTypesStrOf acc.hasZip acc.hasText) acc.processed acc.extracted
         (fileListOf (f1 :: f2 :: rest)))])

/-- `ConversationalSession`: an opaque handle, modelled by the numeric identity
the store assigned to it at creation time. -/
abbrev SessionId := Nat

/-- The process-wide mutable state: `EXTRACTED_FILES`, `CHAT_SESSIONS`, and a
fresh-identity counter for newly created sessions (a model artefact standing
for object identity of the Python session objects). -/
structure AppState where
  extractedFiles : FileStore
  chatSessions : List (String × SessionId)
  nextSessionId : SessionId

/-- Session key derivation (lines 273–277). -/
def sessionKeyOf (store : FileStore) : String :=
  if store.isEmpty then "no_files" else joinComma (sortStrings (store.map Prod.fst))

/-- The `mime_type` chain of lines 290–307. -/
def mimeTypeFor (ext : String) : String :=
  if ext == ".py" then "text/x-python"
  else if ext == ".js" || ext == ".jsx" then "text/javascript"
  else if ext == ".ts" || ext == ".tsx" then "text/typescript"
  else if ext == ".html" then "text/html"
  else if ext == ".css" then "text/css"
  else if ext == ".json" || ext == ".jsonl" then "application/json"
  else if ext == ".xml" || ext == ".svg" then "application/xml"
  else "text/plain"

/-- One seeded part: its mime type and `"File: " ++ filename ++ "\n\n" ++ content`. -/
def seedPart (filename content : String) : String × String :=
  (mimeTypeFor (extLower filename), "File: " ++ filename ++ "\n\n" ++ content)

/-- `initial_contents` built from the whole store (lines 287–318). -/
def buildSeedParts (store : FileStore) : List (String × String) :=
  store.flatMap (fun a => a.2.map (fun p => seedPart p.1 p.2))

/-- The trailing natural-language note appended when at least one file part exists. -/
def seedNote : String :=
  "I\x27ve uploaded these code files for you to analyze. I\x27ll ask questions about them next."

/-- Lines 279–327: fetch the session for `key`, creating and seeding it on a
miss.  Returns the session handle, the state afterwards, and the file parts of
the seed message sent (`none` when no seeding send happened; when it is
`some parts`, the message sent is `parts` plus `seedNote`). -/
def getOrCreate (st : AppState) (key : String) :
    SessionId × AppState × Option (List (String × String)) :=
  match dictGet st.chatSessions key with
  | some sid => (sid, st, none)
  | none =>
    let sid := st.nextSessionId
    let parts := buildSeedParts st.extractedFiles
    (sid,
     { st with chatSessions := dictInsert st.chatSessions key sid, nextSessionId := sid + 1 },
     if parts.isEmpty then none else some parts)

/-- One streamed chunk: the text of each part of its first candidate (`none`
for a non-text part); a chunk with no candidates or no parts is the empty list. -/
abbrev Chunk := List (Option String)

/-- `chatbot[-1] = m` on a non-empty transcript. -/
def setLast (chat : Chat) (m : Msg) : Chat := chat.dropLast ++ [m]

/-- The inner loop over `chunk.candidates[0].content.parts` (lines 337–348):
returns the transcript and buffer afterwards and the yielded snapshots. -/
def streamParts (ps : List (Option String)) (chat : Chat) (buf : String) :
    Chat × String × List Chat :=
  match ps with
  | [] => (chat, buf, [])
  | none :: rest => streamParts rest chat buf
  | some t :: rest =>
    let buf2 := buf ++ t
    let chat2 := setLast chat ("assistant", buf2)
    let r := streamParts rest chat2 buf2
    (r.1, r.2.1, chat2 :: r.2.2)

/-- The outer loop over the streamed chunks. -/
def streamChunks (cs : List Chunk) (chat : Chat) (buf : String) :
    Chat × String × List Chat :=
  match cs with
  | [] => (chat, buf, [])
  | c :: rest =>
    let r := streamParts c chat buf
    let r2 := streamChunks rest r.1 r.2.1
    (r2.1, r2.2.1, r.2.2 ++ r2.2.2)

/-- The textual increments delivered by a stream, in arrival order. -/
def streamIncrements (cs : List Chunk) : List String :=
  cs.flatMap (fun c => c.filterMap id)

/-- Everything observable about one `send_to_gemini` run: the returned
transcript, the state afterwards, the transcript snapshots yielded during
streaming, whether a session was created, the seed parts sent (if any), and
whether the prompt was submitted to the model via `send_message_stream`. -/
structure RespondResult where
  chat : Chat
  state : AppState
  yields : List Chat
  sessionCreated : Bool
  seedSent : Option (List (String × String))
  modelCalled : Bool

/-- The guidance reply when no prompt is available. -/
def noInputReply : String := "Please enter a message to start the conversation."

/-- The canned reply to an upload-summary prompt. -/
def uploadCannedReply : String := "What would you like to know about the code in this ZIP file?"

/-- The three marker strings of line 269. -/
def uploadMarkers : List String :=
  ["📦 ZIP file uploaded:", "📄 File uploaded:", "📚 Multiple files uploaded"]

/-- Line 269: `any(upload_msg in prompt for upload_msg in [...])`. -/
def isUploadPrompt (prompt : String) : Bool := uploadMarkers.any (fun m => pyIn m prompt)

/-- `get_message_content` (lines 228–238); messages are always `(role, content)` pairs. -/
def get_message_content (m : Msg) : String := m.2

/-- `user_messages[-1]` (lines 259–265). -/
def lastUserMsg (chat : Chat) : Option Msg := (chat.filter (fun m => m.1 == "user")).getLast?

/-- `send_to_gemini` (lines 241–351); `stream` is the model's streamed reply to
the prompt. -/
def send_to_gemini (stream : List Chunk) (st : AppState) (chatbot : Chat) : RespondResult :=
  if chatbot.isEmpty then
    ⟨chatbot ++ [("assistant", noInputReply)], st, [], false, none, false⟩
  else
    match lastUserMsg chatbot with
    | none => ⟨chatbot ++ [("assistant", noInputReply)], st, [], false, none, false⟩
    | some lastMsg =>
      if isUploadPrompt (get_message_content lastMsg) then
        ⟨chatbot ++ [("assistant", uploadCannedReply)], st, [], false, none, false⟩
      else
        let key := sessionKeyOf st.extractedFiles
        let created := (dictGet st.chatSessions key).isNone
        let goc := getOrCreate st key
        let sr := streamChunks stream (chatbot ++ [("assistant", "")]) ""
        ⟨sr.1, goc.2.1, sr.2.2, created, goc.2.2, true⟩

/-- The welcome message returned by `reset_app`. -/
def resetReply : String :=
  "App has been reset. You can start a new conversation or upload new files."

/-- `reset_app` (lines 354–371).  The fresh-id counter is a model artefact and
is carried over so that later sessions stay distinguishable from earlier ones. -/
def reset_app (st : AppState) (_chatbot : Chat) : AppState × Chat :=
  ({ extractedFiles := [], chatSessions := [], nextSessionId := st.nextSessionId },
   [("assistant", resetReply)])

/-! ### Helper lemmas about the dictionary model -/

theorem dictGet_dictInsert_self {α : Type} (m : List (String × α)) (k : String) (v : α) :
    dictGet (dictInsert m k v) k = some v := by
  induction m with
  | nil => simp [dictInsert, dictGet]
  | cons p rest ih =>
    obtain ⟨k', w⟩ := p
    by_cases h : k' = k
    · simp [dictInsert, dictGet, h]
    · simp [dictInsert, dictGet, h, ih]

theorem dictGet_dictInsert_ne {α : Type} (m : List (String × α)) (k key : String) (v : α)
    (h : key ≠ k) : dictGet (dictInsert m k v) key = dictGet m key := by
  have hkk : k ≠ key := fun hh => h hh.symm
  induction m with
  | nil =>
    simp only [dictInsert, dictGet]
    rw [if_neg hkk]
  | cons p rest ih =>
    obtain ⟨k', w⟩ := p
    simp only [dictInsert]
    by_cases hk : k' = k
    · rw [if_pos hk]
      have hk'key : k' ≠ key := by rw [hk]; exact hkk
      simp only [dictGet]
      rw [if_neg hkk, if_neg hk'key]
    · rw [if_neg hk]
      simp only [dictGet]
      by_cases h2 : k' = key
      · rw [if_pos h2, if_pos h2]
      · rw [if_neg h2, if_neg h2]
        exact ih

theorem dictInsert_eq_append {α : Type} (m : List (String × α)) (k : String) (v : α)
    (h : dictGet m k = none) : dictInsert m k v = m ++ [(k, v)] := by
  induction m with
  | nil => simp [dictInsert]
  | cons p rest ih =>
    obtain ⟨k', w⟩ := p
    by_cases hk : k' = k
    · simp [dictGet, hk] at h
    · simp only [dictGet, hk, if_neg] at h
      simp [dictInsert, hk, ih h]

theorem dictGet_append_of_none {α : Type} (m m2 : List (String × α)) (key : String)
    (h : dictGet m key = none) : dictGet (m ++ m2) key = dictGet m2 key := by
  induction m with
  | nil => simp
  | cons p rest ih =>
    obtain ⟨k', w⟩ := p
    by_cases hk : k' = key
    · simp [dictGet, hk] at h
    · simp only [dictGet, hk, if_neg] at h
      simpa [dictGet, hk] using ih h

/-! ### Helper lemmas about Python substring containment -/

theorem pyInAux_nil (l : List Char) : pyInAux [] l = true := by
  induction l with
  | nil => rfl
  | cons c rest ih => simp [pyInAux, ih, List.isPrefixOf]

theorem isPrefixOf_append_left {l r n : List Char} (h : n.isPrefixOf l = true) :
    n.isPrefixOf (l ++ r) = true := by
  rw [List.isPrefixOf_iff_prefix] at h ⊢
  exact h.trans (l.prefix_append r)

theorem isPrefixOf_append_self (n s : List Char) : n.isPrefixOf (n ++ s) = true := by
  rw [List.isPrefixOf_iff_prefix]
  exact n.prefix_append s

theorem pyInAux_of_middle (p n s : List Char) : pyInAux n (p ++ (n ++ s)) = true := by
  induction p with
  | nil =>
    simp only [List.nil_append]
    cases n with
    | nil => exact pyInAux_nil _
    | cons a as =>
      have e : (a :: as) ++ s = a :: (as ++ s) := rfl
      rw [e]
      show ((a :: as).isPrefixOf (a :: (as ++ s)) || pyInAux (a :: as) (as ++ s)) = true
      rw [← e, isPrefixOf_append_self, Bool.true_or]
  | cons c p' ih =>
    simp [pyInAux, ih]

theorem pyIn_of_eq_append (m a b s : String) (h : s = a ++ (m ++ b)) : pyIn m s = true := by
  subst h
  show pyInAux m.data (a ++ (m ++ b)).data = true
  rw [String.data_append, String.data_append]
  exact pyInAux_of_middle a.data m.data b.data

/-! ### Helper lemmas about code-point string comparison and sorting -/

theorem lexLe_trans : ∀ a b c : List Char,
    lexLe a b = true → lexLe b c = true → lexLe a c = true
  | [], _, _, _, _ => rfl
  | x :: as, [], _, h1, _ => by simp [lexLe] at h1
  | x :: as, y :: bs, [], _, h2 => by simp [lexLe] at h2
  | x :: as, y :: bs, z :: cs, h1, h2 => by
    simp only [lexLe] at h1 h2 ⊢
    by_cases hxy : x.toNat < y.toNat
    · by_cases hyz : y.toNat < z.toNat
      · simp [show x.toNat < z.toNat by omega]
      · by_cases hzy : z.toNat < y.toNat
        · simp [hyz, hzy] at h2
        · simp [show x.toNat < z.toNat by omega]
    · by_cases hyx : y.toNat < x.toNat
      · simp [hxy, hyx] at h1
      · by_cases hyz : y.toNat < z.toNat
        · simp [show x.toNat < z.toNat by omega]
        · by_cases hzy : z.toNat < y.toNat
          · simp [hyz, hzy] at h2
          · have hxz : ¬ x.toNat < z.toNat := by omega
            have hzx : ¬ z.toNat < x.toNat := by omega
            rw [if_neg hxy, if_neg hyx] at h1
            rw [if_neg hyz, if_neg hzy] at h2
            rw [if_neg hxz, if_neg hzx]
            exact lexLe_trans as bs cs h1 h2

theorem lexLe_total : ∀ a b : List Char, lexLe a b = true ∨ lexLe b a = true
  | [], _ => Or.inl rfl
  | _ :: _, [] => Or.inr rfl
  | x :: as, y :: bs => by
    simp only [lexLe]
    by_cases hxy : x.toNat < y.toNat
    · simp [hxy]
    · by_cases hyx : y.toNat < x.toNat
      · simp [hxy, hyx]
      · simpa [hxy, hyx] using lexLe_total as bs

theorem lexLe_antisymm : ∀ a b : List Char,
    lexLe a b = true → lexLe b a = true → a = b
  | [], [], _, _ => rfl
  | [], _ :: _, _, h2 => by simp [lexLe] at h2
  | _ :: _, [], h1, _ => by simp [lexLe] at h1
  | x :: as, y :: bs, h1, h2 => by
    simp only [lexLe] at h1 h2
    by_cases hxy : x.toNat < y.toNat
    · rw [if_neg (by omega : ¬ y.toNat < x.toNat), if_pos hxy] at h2
      exact absurd h2 (by simp)
    · by_cases hyx : y.toNat < x.toNat
      · rw [if_neg hxy, if_pos hyx] at h1
        exact absurd h1 (by simp)
      · have hval : x.toNat = y.toNat := by omega
        have hx : x = y := Char.ext (UInt32.toNat.inj hval)
        rw [if_neg hxy, if_neg hyx] at h1
        rw [if_neg hyx, if_neg hxy] at h2
        rw [hx, lexLe_antisymm as bs h1 h2]

instance : IsTrans String (fun a b => lexLe a.data b.data = true) :=
  ⟨fun _ _ _ h1 h2 => lexLe_trans _ _ _ h1 h2⟩

instance : IsTotal String (fun a b => lexLe a.data b.data = true) :=
  ⟨fun a b => lexLe_total a.data b.data⟩

instance : IsAntisymm String (fun a b => lexLe a.data b.data = true) :=
  ⟨fun _ _ h1 h2 => String.ext (lexLe_antisymm _ _ h1 h2)⟩

theorem sortStrings_perm (l : List String) : List.Perm (sortStrings l) l :=
  List.perm_insertionSort _ l

theorem sortStrings_sorted (l : List String) :
    (sortStrings l).Sorted (fun a b => lexLe a.data b.data = true) :=
  List.sorted_insertionSort _ l

theorem sortStrings_eq_of_perm {l1 l2 : List String} (h : List.Perm l1 l2) :
    sortStrings l1 = sortStrings l2 :=
  List.eq_of_perm_of_sorted ((sortStrings_perm l1).trans (h.trans (sortStrings_perm l2).symm))
    (sortStrings_sorted l1) (sortStrings_sorted l2)

/-! ### Session-key derivation lemmas -/

theorem joinComma_length : ∀ l : List String, l ≠ [] →
    (joinComma l).length + 1 = (l.map String.length).sum + l.length
  | [], h => absurd rfl h
  | [s], _ => by simp [joinComma]
  | s :: s' :: r, _ => by
    have ih := joinComma_length (s' :: r) (by simp)
    have e : joinComma (s :: s' :: r) = s ++ "," ++ joinComma (s' :: r) := rfl
    rw [e]
    simp only [String.length_append, List.map_cons, List.sum_cons, List.length_cons] at ih ⊢
    have hc : (("," : String)).length = 1 := rfl
    omega

theorem sortStrings_length (l : List String) : (sortStrings l).length = l.length :=
  (sortStrings_perm l).length_eq

theorem sortStrings_sum_length (l : List String) :
    ((sortStrings l).map String.length).sum = (l.map String.length).sum :=
  ((sortStrings_perm l).map String.length).sum_eq

theorem sessionKeyOf_ne_nil_eq (st : FileStore) (h : st ≠ []) :
    sessionKeyOf st = joinComma (sortStrings (st.map Prod.fst)) := by
  have hne : st.isEmpty = false := by
    cases st with
    | nil => exact absurd rfl h
    | cons a r => rfl
  simp [sessionKeyOf, hne]

theorem sessionKeyOf_length (st : FileStore) (h : st ≠ []) :
    (sessionKeyOf st).length + 1 = ((st.map Prod.fst).map String.length).sum + st.length := by
  rw [sessionKeyOf_ne_nil_eq st h]
  have hmap : st.map Prod.fst ≠ [] := by
    cases st with
    | nil => exact absurd rfl h
    | cons a r => simp
  have hsort : sortStrings (st.map Prod.fst) ≠ [] := by
    intro hs
    have := sortStrings_length (st.map Prod.fst)
    rw [hs] at this
    simp at this
    exact h (List.eq_nil_of_length_eq_zero this.symm)
  have hj := joinComma_length (sortStrings (st.map Prod.fst)) hsort
  rw [sortStrings_sum_length, sortStrings_length] at hj
  simpa using hj

theorem sessionKeyOf_perm (st1 st2 : FileStore)
    (h : List.Perm (st1.map Prod.fst) (st2.map Prod.fst)) :
    sessionKeyOf st1 = sessionKeyOf st2 := by
  cases st1 with
  | nil =>
    have h2 : st2.map Prod.fst = [] := by
      simpa using h.symm.eq_nil
    have : st2 = [] := by
      cases st2 with
      | nil => rfl
      | cons a r => simp at h2
    rw [this]
  | cons a r =>
    cases st2 with
    | nil =>
      have h2 : (a :: r).map Prod.fst = [] := by simpa using h.eq_nil
      simp at h2
    | cons b r2 =>
      rw [sessionKeyOf_ne_nil_eq _ (by simp), sessionKeyOf_ne_nil_eq _ (by simp),
        sortStrings_eq_of_perm h]

theorem map_fst_dictInsert {α : Type} (m : List (String × α)) (k : String) (v : α)
    (h : dictGet m k = none) :
    (dictInsert m k v).map Prod.fst = m.map Prod.fst ++ [k] := by
  rw [dictInsert_eq_append m k v h]
  simp

theorem sessionKeyOf_insert_ne (st : FileStore) (n : String) (fs : FileSet)
    (hn : dictGet st n = none) (hne : st ≠ []) :
    sessionKeyOf (dictInsert st n fs) ≠ sessionKeyOf st := by
  intro heq
  have hlen := congrArg String.length heq
  have h1 := sessionKeyOf_length st hne
  have h2 := sessionKeyOf_length (dictInsert st n fs) (by
    cases st with
    | nil => exact absurd rfl hne
    | cons a r =>
      simp only [dictInsert]
      by_cases hk : a.1 = n <;> simp [hk])
  rw [map_fst_dictInsert st n fs hn] at h2
  have hins : (dictInsert st n fs).length = st.length + 1 := by
    rw [dictInsert_eq_append st n fs hn]
    simp
  rw [hins] at h2
  simp only [List.map_append, List.sum_append, List.map_cons, List.map_nil, List.sum_cons,
    List.sum_nil] at h2
  omega

theorem sessionKeyOf_singleton (n : String) (fs : FileSet) : sessionKeyOf [(n, fs)] = n := by
  simp [sessionKeyOf, sortStrings, joinComma]

/-! ### Streaming lemmas -/

/-- The successive buffer contents produced by folding increments onto `buf`. -/
def accConcats (buf : String) : List String → List String
  | [] => []
  | t :: ts => (buf ++ t) :: accConcats (buf ++ t) ts

theorem concatAll_append (l1 l2 : List String) :
    concatAll (l1 ++ l2) = concatAll l1 ++ concatAll l2 := by
  induction l1 with
  | nil => simp [concatAll]
  | cons s r ih => simp [concatAll, ih, String.append_assoc]

theorem accConcats_append (buf : String) (l1 l2 : List String) :
    accConcats buf (l1 ++ l2) = accConcats buf l1 ++ accConcats (buf ++ concatAll l1) l2 := by
  induction l1 generalizing buf with
  | nil => simp [accConcats, concatAll]
  | cons t r ih => simp [accConcats, concatAll, ih, String.append_assoc]

theorem setLast_concat (l : Chat) (x m : Msg) : setLast (l ++ [x]) m = l ++ [m] := by
  simp [setLast]

theorem streamParts_spec (ps : List (Option String)) :
    ∀ (front : Chat) (buf : String),
    streamParts ps (front ++ [("assistant", buf)]) buf =
      (front ++ [("assistant", buf ++ concatAll (ps.filterMap id))],
       buf ++ concatAll (ps.filterMap id),
       (accConcats buf (ps.filterMap id)).map (fun b => front ++ [("assistant", b)])) := by
  induction ps with
  | nil => intro front buf; simp [streamParts, concatAll, accConcats]
  | cons p rest ih =>
    intro front buf
    cases p with
    | none => simpa [streamParts] using ih front buf
    | some t =>
      simp only [streamParts, setLast_concat]
      rw [ih front (buf ++ t)]
      simp [accConcats, concatAll, String.append_assoc]

theorem streamChunks_spec (cs : List Chunk) :
    ∀ (front : Chat) (buf : String),
    streamChunks cs (front ++ [("assistant", buf)]) buf =
      (front ++ [("assistant", buf ++ concatAll (streamIncrements cs))],
       buf ++ concatAll (streamIncrements cs),
       (accConcats buf (streamIncrements cs)).map (fun b => front ++ [("assistant", b)])) := by
  induction cs with
  | nil => intro front buf; simp [streamChunks, streamIncrements, concatAll, accConcats]
  | cons c rest ih =>
    intro front buf
    simp only [streamChunks]
    rw [streamParts_spec c front buf]
    simp only []
    rw [ih front (buf ++ concatAll (c.filterMap id))]
    have hinc : streamIncrements (c :: rest) = c.filterMap id ++ streamIncrements rest := by
      simp [streamIncrements]
    rw [hinc, concatAll_append, accConcats_append]
    simp [String.append_assoc]

/-- The content of the last entry of a transcript (`""` on an empty one). -/
def lastEntryContent (c : Chat) : String := ((c.getLast?).map Prod.snd).getD ""

theorem lastEntryContent_concat (front : Chat) (m : Msg) :
    lastEntryContent (front ++ [m]) = m.2 := by
  simp [lastEntryContent, List.getLast?_concat]

theorem accConcats_mem_pfx : ∀ (ts : List String) (buf x : String),
    x ∈ accConcats buf ts → buf.data <+: x.data
  | [], buf, x, h => by simp [accConcats] at h
  | t :: ts, buf, x, h => by
    simp only [accConcats, List.mem_cons] at h
    cases h with
    | inl h =>
      subst h
      exact ⟨t.data, by simp [String.data_append]⟩
    | inr h =>
      have hrec := accConcats_mem_pfx ts (buf ++ t) x h
      have hstep : buf.data <+: (buf ++ t).data := ⟨t.data, by simp [String.data_append]⟩
      exact hstep.trans hrec

theorem accConcats_chain_pfx : ∀ (ts : List String) (buf : String),
    List.Chain' (fun a b : String => a.data <+: b.data) (accConcats buf ts)
  | [], _ => List.chain'_nil
  | [t], buf => by simp [accConcats]
  | t :: t' :: ts', buf => by
    have hrec := accConcats_chain_pfx (t' :: ts') (buf ++ t)
    simp only [accConcats] at hrec ⊢
    rw [List.chain'_cons]
    refine ⟨⟨t'.data, by simp [String.data_append]⟩, hrec⟩

theorem length_pos_of_ne_empty {t : String} (h : t ≠ "") : 0 < t.length := by
  cases ht : t.data with
  | nil => exact absurd (String.ext ht) h
  | cons c r =>
    have : t.length = t.data.length := rfl
    rw [this, ht]
    simp

theorem accConcats_chain_strict : ∀ (ts : List String) (buf : String),
    (∀ t ∈ ts, t ≠ "") →
    List.Chain' (fun a b : String => a.data <+: b.data ∧ a.length < b.length)
      (accConcats buf ts)
  | [], _, _ => List.chain'_nil
  | [t], buf, _ => by simp [accConcats]
  | t :: t' :: ts', buf, h => by
    have hrec := accConcats_chain_strict (t' :: ts') (buf ++ t)
      (fun x hx => h x (List.mem_cons_of_mem t hx))
    simp only [accConcats] at hrec ⊢
    rw [List.chain'_cons]
    refine ⟨⟨⟨t'.data, by simp [String.data_append]⟩, ?_⟩, hrec⟩
    have ht' : t' ≠ "" := h t' (by simp)
    have := length_pos_of_ne_empty ht'
    simp only [String.length_append]
    omega

/-! ### Unfolding lemmas for `send_to_gemini` -/

theorem lastUserMsg_ne_nil {chat : Chat} {m : Msg} (h : lastUserMsg chat = some m) :
    chat.isEmpty = false := by
  cases chat with
  | nil => simp [lastUserMsg] at h
  | cons a r => rfl

theorem send_to_gemini_of_upload (stream : List Chunk) (st : AppState) (chat : Chat) (m : Msg)
    (h1 : lastUserMsg chat = some m) (h2 : isUploadPrompt (get_message_content m) = true) :
    send_to_gemini stream st chat =
      ⟨chat ++ [("assistant", uploadCannedReply)], st, [], false, none, false⟩ := by
  simp [send_to_gemini, lastUserMsg_ne_nil h1, h1, h2]

theorem send_to_gemini_of_question (stream : List Chunk) (st : AppState) (chat : Chat) (m : Msg)
    (h1 : lastUserMsg chat = some m) (h2 : isUploadPrompt (get_message_content m) = false) :
    send_to_gemini stream st chat =
      ⟨chat ++ [("assistant", concatAll (streamIncrements stream))],
       (getOrCreate st (sessionKeyOf st.extractedFiles)).2.1,
       (accConcats "" (streamIncrements stream)).map (fun b => chat ++ [("assistant", b)]),
       (dictGet st.chatSessions (sessionKeyOf st.extractedFiles)).isNone,
       (getOrCreate st (sessionKeyOf st.extractedFiles)).2.2,
       true⟩ := by
  have hs := streamChunks_spec stream chat ""
  simp only [String.empty_append] at hs
  simp [send_to_gemini, lastUserMsg_ne_nil h1, h1, h2, hs]

theorem send_to_gemini_of_no_user (stream : List Chunk) (st : AppState) (chat : Chat)
    (h : chat.all (fun m => !(m.1 == "user")) = true) :
    send_to_gemini stream st chat =
      ⟨chat ++ [("assistant", noInputReply)], st, [], false, none, false⟩ := by
  cases chat with
  | nil => rfl
  | cons a r =>
    have hfilter : (a :: r).filter (fun m => m.1 == "user") = [] := by
      rw [List.filter_eq_nil_iff]
      intro x hx
      have := (List.all_eq_true.mp h) x hx
      simpa using this
    have hlast : lastUserMsg (a :: r) = none := by
      simp [lastUserMsg, hfilter]
    simp [send_to_gemini, hlast]

/-! ### Upload aggregator lemmas -/

theorem uploadLoop_spec (decode : List Nat → String) :
    ∀ (files : List UploadedFile) (acc : UploadAcc),
    (uploadLoop decode files acc).processed = acc.processed + files.length
    ∧ (uploadLoop decode files acc).extracted =
        acc.extracted + (files.map (fun f => (extractArtifact decode f).length)).sum
    ∧ (uploadLoop decode files acc).hasZip = (acc.hasZip || files.any (fun f => isZipUpload f))
    ∧ (uploadLoop decode files acc).hasText = (acc.hasText || files.any (fun f => !isZipUpload f))
  | [], acc => by simp [uploadLoop]
  | f :: rest, acc => by
    obtain ⟨ih1, ih2, ih3, ih4⟩ := uploadLoop_spec decode rest
      ⟨(if (extractArtifact decode f).isEmpty then acc.store
        else dictInsert acc.store (basename f.path) (extractArtifact decode f)),
       acc.processed + 1,
       (if (extractArtifact decode f).isEmpty then acc.extracted
        else acc.extracted + (extractArtifact decode f).length),
       acc.hasZip || isZipUpload f,
       acc.hasText || !isZipUpload f⟩
    refine ⟨?_, ?_, ?_, ?_⟩
    · rw [show uploadLoop decode (f :: rest) acc = uploadLoop decode rest _ from rfl, ih1]
      simp
      omega
    · rw [show uploadLoop decode (f :: rest) acc = uploadLoop decode rest _ from rfl, ih2]
      by_cases he : (extractArtifact decode f).isEmpty = true
      · have hlen : (extractArtifact decode f).length = 0 := by
          rw [List.isEmpty_iff] at he
          simp [he]
        simp [he, hlen]
      · simp only [Bool.not_eq_true] at he
        simp [he]
        omega
    · rw [show uploadLoop decode (f :: rest) acc = uploadLoop decode rest _ from rfl, ih3]
      simp [Bool.or_assoc]
    · rw [show uploadLoop decode (f :: rest) acc = uploadLoop decode rest _ from rfl, ih4]
      simp [Bool.or_assoc]

theorem zipLoop_spec (decode : List Nat → String) :
    ∀ (entries : List ZipEntry) (acc : FileSet),
    List.Nodup (entries.map ZipEntry.filename) →
    (∀ e ∈ entries, dictGet acc e.filename = none) →
    zipLoop decode entries acc =
      acc ++ (entries.filter (fun e => zipEntryKept e)).map
        (fun e => (e.filename, zipEntryContent decode e))
  | [], acc, _, _ => by simp [zipLoop]
  | e :: rest, acc, hnd, hacc => by
    have hnd2 : e.filename ∉ rest.map ZipEntry.filename ∧
        (rest.map ZipEntry.filename).Nodup := by
      rw [List.map_cons] at hnd
      exact List.nodup_cons.mp hnd
    by_cases hdir : (e.filename.data.getLast? == some '/') = true
    · have hkept : zipEntryKept e = false := by simp [zipEntryKept, hdir]
      have hrec := zipLoop_spec decode rest acc hnd2.2
        (fun x hx => hacc x (List.mem_cons_of_mem e hx))
      simp only [zipLoop, hdir, if_pos]
      rw [hrec]
      simp [List.filter_cons, hkept]
    · by_cases hext : TEXT_EXTENSIONS.contains (extLower e.filename) = true
      · have hkept : zipEntryKept e = true := by
          simp only [zipEntryKept, Bool.and_eq_true, Bool.not_eq_true']
          exact ⟨by simpa using hdir, hext⟩
        have hget : dictGet acc e.filename = none := hacc e (by simp)
        have hins : dictInsert acc e.filename (zipEntryContent decode e) =
            acc ++ [(e.filename, zipEntryContent decode e)] :=
          dictInsert_eq_append _ _ _ hget
        have hacc2 : ∀ x ∈ rest,
            dictGet (acc ++ [(e.filename, zipEntryContent decode e)]) x.filename = none := by
          intro x hx
          rw [dictGet_append_of_none _ _ _ (hacc x (List.mem_cons_of_mem e hx))]
          have hne : e.filename ≠ x.filename := by
            intro hh
            exact hnd2.1 (List.mem_map.mpr ⟨x, hx, hh.symm⟩)
          simp [dictGet, hne]
        have hrec := zipLoop_spec decode rest
          (acc ++ [(e.filename, zipEntryContent decode e)]) hnd2.2 hacc2
        simp only [zipLoop, hdir, Bool.false_eq_true, if_false, hext, if_pos]
        rw [hins, hrec]
        simp [List.filter_cons, hkept]
      · have hkept : zipEntryKept e = false := by
          simp only [zipEntryKept, Bool.and_eq_false_iff]
          right
          simpa using hext
        have hrec := zipLoop_spec decode rest acc hnd2.2
          (fun x hx => hacc x (List.mem_cons_of_mem e hx))
        simp only [zipLoop, hdir, Bool.false_eq_true, if_false, hext]
        rw [hrec]
        simp [List.filter_cons, hkept]

/-! ### Upload-summary template containment lemmas -/

theorem isUploadPrompt_of_marker (prompt m : String) (hm : m ∈ uploadMarkers)
    (h : pyIn m prompt = true) : isUploadPrompt prompt = true := by
  simp only [isUploadPrompt]
  exact List.any_eq_true.mpr ⟨m, hm, h⟩

theorem pyIn_singleEmpty (ftm filename : String) :
    pyIn (ftm ++ " uploaded:") (singleEmptyMsg ftm filename) = true := by
  apply pyIn_of_eq_append (ftm ++ " uploaded:") "<p>"
    (" " ++ (filename ++
      ", but no text content was found or the file format is not supported.</p>"))
  unfold singleEmptyMsg
  apply String.ext
  simp only [String.data_append, List.append_assoc]
  rfl

theorem pyIn_singleNonEmpty (ftm filename : String) (count : Nat) (fl : String) :
    pyIn (ftm ++ " uploaded:") (singleNonEmptyMsg ftm filename count fl) = true := by
  apply pyIn_of_eq_append (ftm ++ " uploaded:") "<p>"
    (" " ++ (filename ++ ("</p><p>Extracted " ++ (toString count ++
      (" text file(s):</p><pre>" ++ (fl ++ "</pre>"))))))
  unfold singleNonEmptyMsg
  apply String.ext
  simp only [String.data_append, List.append_assoc]
  rfl

theorem pyIn_multiMixed (p e : Nat) (fl : String) :
    pyIn "📚 Multiple files uploaded" (multiMsg "files" p e fl) = true := by
  apply pyIn_of_eq_append "📚 Multiple files uploaded" "<p>"
    (" (" ++ (toString p ++ (" files)</p><p>Extracted " ++ (toString e ++
      (" text file(s) in total</p><p>Uploaded files:</p><pre>" ++ (fl ++ "</pre>"))))))
  unfold multiMsg
  apply String.ext
  simp only [String.data_append, List.append_assoc]
  rfl

/-! ### Claim theorems -/

/-- C1: for every session identity already present in the session store, a
subsequent get-or-create returns the existing ConversationalSession unchanged
and performs no session creation and no seeding send; a seed is sent only when
the identity was absent, after any get-or-create the identity is present (so
seeding happens at most once per identity, at creation), and a
`send_to_gemini` run over a present identity sends no seed and leaves the
state unchanged. -/
theorem spec_c1 (st : AppState) (key : String) (sid : SessionId)
    (h : dictGet st.chatSessions key = some sid) :
    getOrCreate st key = (sid, st, none)
    ∧ (∀ st2 : AppState, (getOrCreate st2 key).2.2.isSome = true →
        dictGet st2.chatSessions key = none)
    ∧ (∀ st2 : AppState,
        (dictGet ((getOrCreate st2 key).2.1).chatSessions key).isSome = true)
    ∧ (∀ (stream : List Chunk) (chat : Chat) (m : Msg),
        lastUserMsg chat = some m → isUploadPrompt (get_message_content m) = false →
        sessionKeyOf st.extractedFiles = key →
        (send_to_gemini stream st chat).seedSent = none
        ∧ (send_to_gemini stream st chat).state = st) := by
  refine ⟨?_, ?_, ?_, ?_⟩
  · simp [getOrCreate, h]
  · intro st2 hseed
    cases hget : dictGet st2.chatSessions key with
    | none => rfl
    | some s => simp [getOrCreate, hget] at hseed
  · intro st2
    cases hget : dictGet st2.chatSessions key with
    | some s => simp [getOrCreate, hget]
    | none => simp [getOrCreate, hget, dictGet_dictInsert_self]
  · intro stream chat m h1 h2 hkey
    rw [send_to_gemini_of_question stream st chat m h1 h2, hkey]
    simp [getOrCreate, h]

/-- Witness for C1 at a concrete store holding the identity `"no_files"`. -/
theorem spec_c1_witness :
    getOrCreate ⟨[], [("no_files", 5)], 6⟩ "no_files" =
      (5, ⟨[], [("no_files", 5)], 6⟩, none) :=
  (spec_c1 ⟨[], [("no_files", 5)], 6⟩ "no_files" 5 (by decide)).1

/-- C2 counterexample: adding the artifact name `"no_files"` to an empty
FileStore does **not** change the session identity — both sides derive the
sentinel string — refuting the claim that adding an artifact name always
changes the identity. -/
theorem spec_c2_counterexample :
    dictGet ([] : FileStore) "no_files" = none
    ∧ sessionKeyOf (dictInsert ([] : FileStore) "no_files" [("a.py", "x")]) =
        sessionKeyOf [] := by
  refine ⟨rfl, ?_⟩
  show sessionKeyOf [("no_files", [("a.py", "x")])] = sessionKeyOf []
  rw [sessionKeyOf_singleton]
  rfl

/-- C2 amended: session-key derivation is a pure function of the artifact-name
multiset (hence content changes never affect it); the empty store yields the
sentinel `"no_files"`, a non-empty store yields the sorted comma-join; adding
a fresh name to a non-empty store always changes the identity, and adding a
name to the empty store changes it unless the name is the literal sentinel
`"no_files"` (with removal covered by symmetry of inequality). -/
theorem spec_c2_amended :
    (∀ st1 st2 : FileStore, List.Perm (st1.map Prod.fst) (st2.map Prod.fst) →
      sessionKeyOf st1 = sessionKeyOf st2)
    ∧ (∀ st1 st2 : FileStore, st1.map Prod.fst = st2.map Prod.fst →
      sessionKeyOf st1 = sessionKeyOf st2)
    ∧ sessionKeyOf [] = "no_files"
    ∧ (∀ st : FileStore, st ≠ [] →
        sessionKeyOf st = joinComma (sortStrings (st.map Prod.fst)))
    ∧ (∀ (st : FileStore) (n : String) (fs : FileSet), dictGet st n = none → st ≠ [] →
        sessionKeyOf (dictInsert st n fs) ≠ sessionKeyOf st)
    ∧ (∀ (n : String) (fs : FileSet), n ≠ "no_files" →
        sessionKeyOf [(n, fs)] ≠ sessionKeyOf []) := by
  refine ⟨sessionKeyOf_perm, ?_, rfl, sessionKeyOf_ne_nil_eq, sessionKeyOf_insert_ne, ?_⟩
  · intro st1 st2 h
    exact sessionKeyOf_perm st1 st2 (h ▸ List.Perm.refl _)
  · intro n fs hn
    rw [sessionKeyOf_singleton]
    exact hn

/-- Witness for C2 at concrete stores: permutation invariance and content
independence, a fresh name changing a non-empty store's identity, and a
non-sentinel name changing the empty store's identity. -/
theorem spec_c2_witness :
    sessionKeyOf [("b.py", [("f", "x")]), ("a.py", [])] =
      sessionKeyOf [("a.py", []), ("b.py", [("g", "y")])]
    ∧ sessionKeyOf (dictInsert [("a.py", [])] "b.py" []) ≠ sessionKeyOf [("a.py", [])]
    ∧ sessionKeyOf [("a.py", [])] ≠ sessionKeyOf [] := by
  refine ⟨spec_c2_amended.1 _ _ (by decide), ?_, spec_c2_amended.2.2.2.2.2 "a.py" [] (by decide)⟩
  exact spec_c2_amended.2.2.2.2.1 [("a.py", [])] "b.py" [] (by decide) (by decide)

/-- C3 counterexample: a multi-artifact upload of two ZIP files produces the
combined summary `multiMsg "ZIP files" …`, which does not contain any of the
three markers, so the very next `respond` does **not** return the canned
message — it creates a session and calls the model — refuting the claim for
"any multi-artifact combined message". -/
theorem spec_c3_counterexample :
    (upload_zip (fun _ => "")
      [⟨"/tmp/t.zip", [⟨"x.py", .ok []⟩, ⟨"y.py", .ok []⟩, ⟨"z.md", .error "e"⟩], .error "u"⟩,
       ⟨"/tmp/e.zip", [], .error "u"⟩] [] []).2 =
      [("user", multiMsg "ZIP files" 2 3 "- t.zip\n- e.zip")]
    ∧ (send_to_gemini [] ⟨(upload_zip (fun _ => "")
      [⟨"/tmp/t.zip", [⟨"x.py", .ok []⟩, ⟨"y.py", .ok []⟩, ⟨"z.md", .error "e"⟩], .error "u"⟩,
       ⟨"/tmp/e.zip", [], .error "u"⟩] [] []).1, [], 0⟩
      [("user", multiMsg "ZIP files" 2 3 "- t.zip\n- e.zip")]).modelCalled = true
    ∧ (send_to_gemini [] ⟨(upload_zip (fun _ => "")
      [⟨"/tmp/t.zip", [⟨"x.py", .ok []⟩, ⟨"y.py", .ok []⟩, ⟨"z.md", .error "e"⟩], .error "u"⟩,
       ⟨"/tmp/e.zip", [], .error "u"⟩] [] []).1, [], 0⟩
      [("user", multiMsg "ZIP files" 2 3 "- t.zip\n- e.zip")]).sessionCreated = true := by
  exact ⟨rfl, rfl, rfl⟩

/-- C3 amended: when the most recent user entry is a single-artifact template
(empty or non-empty, for either artifact kind) or the mixed-kind multi-artifact
template (`file_types_str = "files"`, the only multi variant containing the
marker), `respond` appends the canned reply and terminates with no session
access and no model call.  All-ZIP and all-text multi-artifact summaries are
not recognized (see the counterexample). -/
theorem spec_c3_amended (stream : List Chunk) (st : AppState) (chat : Chat) (m : Msg)
    (h1 : lastUserMsg chat = some m)
    (h2 : (∃ ftm filename, (ftm = "📦 ZIP file" ∨ ftm = "📄 File") ∧
            get_message_content m = singleEmptyMsg ftm filename)
        ∨ (∃ ftm filename count fl, (ftm = "📦 ZIP file" ∨ ftm = "📄 File") ∧
            get_message_content m = singleNonEmptyMsg ftm filename count fl)
        ∨ (∃ p e fl, get_message_content m = multiMsg "files" p e fl)) :
    send_to_gemini stream st chat =
      ⟨chat ++ [("assistant", uploadCannedReply)], st, [], false, none, false⟩ := by
  apply send_to_gemini_of_upload stream st chat m h1
  rcases h2 with ⟨ftm, fn, hftm, hmsg⟩ | ⟨ftm, fn, c, fl, hftm, hmsg⟩ | ⟨p, e, fl, hmsg⟩
  · rw [hmsg]
    rcases hftm with h | h <;> subst h
    · exact isUploadPrompt_of_marker _ "📦 ZIP file uploaded:" (by simp [uploadMarkers])
        (pyIn_singleEmpty "📦 ZIP file" fn)
    · exact isUploadPrompt_of_marker _ "📄 File uploaded:" (by simp [uploadMarkers])
        (pyIn_singleEmpty "📄 File" fn)
  · rw [hmsg]
    rcases hftm with h | h <;> subst h
    · exact isUploadPrompt_of_marker _ "📦 ZIP file uploaded:" (by simp [uploadMarkers])
        (pyIn_singleNonEmpty "📦 ZIP file" fn c fl)
    · exact isUploadPrompt_of_marker _ "📄 File uploaded:" (by simp [uploadMarkers])
        (pyIn_singleNonEmpty "📄 File" fn c fl)
  · rw [hmsg]
    exact isUploadPrompt_of_marker _ "📚 Multiple files uploaded" (by simp [uploadMarkers])
      (pyIn_multiMixed p e fl)

/-- Witness for C3 at a concrete transcript ending in a single-ZIP empty
upload summary. -/
theorem spec_c3_witness :
    send_to_gemini [] ⟨[], [], 0⟩ [("user", singleEmptyMsg "📦 ZIP file" "a.zip")] =
      ⟨[("user", singleEmptyMsg "📦 ZIP file" "a.zip"), ("assistant", uploadCannedReply)],
       ⟨[], [], 0⟩, [], false, none, false⟩ := by
  have h := spec_c3_amended [] ⟨[], [], 0⟩ [("user", singleEmptyMsg "📦 ZIP file" "a.zip")]
    ("user", singleEmptyMsg "📦 ZIP file" "a.zip") rfl
    (Or.inl ⟨"📦 ZIP file", "a.zip", Or.inl rfl, rfl⟩)
  exact h

/-- C4 counterexample: with increments `["a", ""]` delivered in one chunk the
two observable intermediate contents are `"a"` and `"a"` — the second is not a
*strictly* growing extension of the first — refuting strict growth for every
increment sequence. -/
theorem spec_c4_counterexample :
    (send_to_gemini [[some "a", some ""]] ⟨[], [], 0⟩
        [("user", "q")]).yields.map lastEntryContent = ["a", "a"]
    ∧ ¬ List.Chain' (fun x y : String => x.data <+: y.data ∧ x.length < y.length)
        ((send_to_gemini [[some "a", some ""]] ⟨[], [], 0⟩
          [("user", "q")]).yields.map lastEntryContent) := by
  refine ⟨rfl, ?_⟩
  intro hch
  rw [show (send_to_gemini [[some "a", some ""]] ⟨[], [], 0⟩
      [("user", "q")]).yields.map lastEntryContent = ["a", "a"] from rfl] at hch
  rw [List.chain'_cons] at hch
  exact absurd hch.1.2 (by simp)

/-- C4 amended: for every stream, the final transcript appends one assistant
entry holding the concatenation of all increments in arrival order; the yielded
snapshots are exactly the running concatenations (each snapshot rewrites only
the last entry, the prefix of the transcript is preserved); consecutive
observable contents grow by prefix (non-strictly in general, and strictly when
every increment is non-empty). -/
theorem spec_c4_amended (stream : List Chunk) (st : AppState) (chat : Chat) (m : Msg)
    (h1 : lastUserMsg chat = some m) (h2 : isUploadPrompt (get_message_content m) = false) :
    (send_to_gemini stream st chat).chat =
      chat ++ [("assistant", concatAll (streamIncrements stream))]
    ∧ (send_to_gemini stream st chat).yields =
        (accConcats "" (streamIncrements stream)).map (fun b => chat ++ [("assistant", b)])
    ∧ (send_to_gemini stream st chat).yields.map lastEntryContent =
        accConcats "" (streamIncrements stream)
    ∧ List.Chain' (fun a b : String => a.data <+: b.data)
        ((send_to_gemini stream st chat).yields.map lastEntryContent)
    ∧ ((∀ t ∈ streamIncrements stream, t ≠ "") →
        List.Chain' (fun a b : String => a.data <+: b.data ∧ a.length < b.length)
          ((send_to_gemini stream st chat).yields.map lastEntryContent))
    ∧ lastEntryContent (send_to_gemini stream st chat).chat =
        concatAll (streamIncrements stream) := by
  have hq := send_to_gemini_of_question stream st chat m h1 h2
  have hmap : (send_to_gemini stream st chat).yields.map lastEntryContent =
      accConcats "" (streamIncrements stream) := by
    rw [hq]
    show ((accConcats "" (streamIncrements stream)).map
      (fun b => chat ++ [("assistant", b)])).map lastEntryContent = _
    rw [List.map_map]
    have hco : (lastEntryContent ∘ fun b => chat ++ [("assistant", b)]) = id := by
      funext b
      simp [Function.comp, lastEntryContent_concat]
    rw [hco, List.map_id]
  refine ⟨by rw [hq], by rw [hq], hmap, ?_, ?_, ?_⟩
  · rw [hmap]
    exact accConcats_chain_pfx (streamIncrements stream) ""
  · intro hne
    rw [hmap]
    exact accConcats_chain_strict (streamIncrements stream) "" hne
  · rw [hq]
    show lastEntryContent (chat ++ [("assistant", concatAll (streamIncrements stream))]) = _
    rw [lastEntryContent_concat]

/-- Witness for C4 at the spec's example stream `["Hel", "lo, ", "world"]`. -/
theorem spec_c4_witness :
    (send_to_gemini [[some "Hel"], [some "lo, "], [some "world"]] ⟨[], [], 0⟩
        [("user", "q")]).chat = [("user", "q"), ("assistant", "Hello, world")]
    ∧ (send_to_gemini [[some "Hel"], [some "lo, "], [some "world"]] ⟨[], [], 0⟩
        [("user", "q")]).yields.map lastEntryContent = ["Hel", "Hello, ", "Hello, world"] := by
  have h := spec_c4_amended [[some "Hel"], [some "lo, "], [some "world"]] ⟨[], [], 0⟩
    [("user", "q")] ("user", "q") rfl rfl
  exact ⟨h.1, h.2.2.1⟩

/-- C5 counterexample: an archive may contain two members with the same name;
both pass the extension filter, but the dict assignment
`text_contents[file_info.filename] = content` overwrites, so the earlier
entry's content (`decode` of its bytes, here `"first"`) is dropped and the
result holds one entry where two entries qualified — refuting
"for any archive … no entry that passes the extension filter is ever
dropped". -/
theorem spec_c5_counterexample :
    extract_text_from_zip (fun _ => "first")
      [⟨"a.py", .ok [0]⟩, ⟨"a.py", .error "boom"⟩] =
      [("a.py", "Error extracting file: boom")]
    ∧ (([⟨"a.py", .ok [0]⟩, ⟨"a.py", .error "boom"⟩] : List ZipEntry).filter
        (fun e => zipEntryKept e)).length = 2
    ∧ (extract_text_from_zip (fun _ => "first")
        [⟨"a.py", .ok [0]⟩, ⟨"a.py", .error "boom"⟩]).length = 1
    ∧ ("a.py", "first") ∉ extract_text_from_zip (fun _ => "first")
        [⟨"a.py", .ok [0]⟩, ⟨"a.py", .error "boom"⟩] := by
  exact ⟨rfl, rfl, rfl, by decide⟩

/-- C5 amended: for an archive whose member names are distinct (when names
repeat, the later occurrence overwrites the earlier one in the resulting
mapping, as the counterexample shows), extraction returns
exactly the non-directory allow-listed entries, in order, each mapped to its
decoded content (`decode` models UTF-8 decoding with invalid-byte
substitution) or to the diagnostic string `"Error extracting file: <cause>"`
on a read failure; the single-file extractor likewise yields the decoded
content or `"Error reading file: <cause>"` for an allow-listed extension and
the empty set otherwise.  Extraction is a total function: no input raises. -/
theorem spec_c5 (decode : List Nat → String) (entries : List ZipEntry)
    (hnd : List.Nodup (entries.map ZipEntry.filename)) :
    extract_text_from_zip decode entries =
      (entries.filter (fun e => zipEntryKept e)).map
        (fun e => (e.filename, zipEntryContent decode e))
    ∧ (∀ name msg : String,
        zipEntryContent decode ⟨name, .error msg⟩ = "Error extracting file: " ++ msg)
    ∧ (∀ (name : String) (bytes : List Nat),
        zipEntryContent decode ⟨name, .ok bytes⟩ = decode bytes)
    ∧ (∀ path msg : String,
        TEXT_EXTENSIONS.contains (extLower (basename path)) = true →
        extract_text_from_single_file decode path (.error msg) =
          [(basename path, "Error reading file: " ++ msg)])
    ∧ (∀ (path : String) (r : Except String (List Nat)),
        TEXT_EXTENSIONS.contains (extLower (basename path)) = false →
        extract_text_from_single_file decode path r = [])
    ∧ (∀ (path : String) (bytes : List Nat),
        TEXT_EXTENSIONS.contains (extLower (basename path)) = true →
        extract_text_from_single_file decode path (.ok bytes) =
          [(basename path, decode bytes)]) := by
  refine ⟨?_, fun _ _ => rfl, fun _ _ => rfl, ?_, ?_, ?_⟩
  · have h := zipLoop_spec decode entries [] hnd (fun _ _ => rfl)
    simpa [extract_text_from_zip] using h
  · intro path msg h
    have h2 : extLower (basename path) ∈ TEXT_EXTENSIONS := by simpa using h
    simp [extract_text_from_single_file, h2]
  · intro path r h
    have h2 : ¬ extLower (basename path) ∈ TEXT_EXTENSIONS := by simpa using h
    simp [extract_text_from_single_file, h2]
  · intro path bytes h
    have h2 : extLower (basename path) ∈ TEXT_EXTENSIONS := by simpa using h
    simp [extract_text_from_single_file, h2]

/-- Witness for C5 at a concrete archive mixing an allow-listed file, a
directory entry, a non-allow-listed file, and a failing read. -/
theorem spec_c5_witness :
    extract_text_from_zip (fun _ => "text")
      [⟨"a.py", .ok []⟩, ⟨"d/", .ok []⟩, ⟨"b.exe", .ok []⟩, ⟨"c.md", .error "boom"⟩] =
      [("a.py", "text"), ("c.md", "Error extracting file: boom")] := by
  have h := (spec_c5 (fun _ => "text")
    [⟨"a.py", .ok []⟩, ⟨"d/", .ok []⟩, ⟨"b.exe", .ok []⟩, ⟨"c.md", .error "boom"⟩]
    (by decide)).1
  exact h

/-- C6: every upload of two or more artifacts appends exactly one combined
user entry — the multi-artifact template instantiated with the number of
artifacts processed, the total number of files extracted across all of them,
and the list of uploaded artifact names — and no per-artifact messages. -/
theorem spec_c6 (decode : List Nat → String) (files : List UploadedFile)
    (store : FileStore) (chat : Chat) (h : 2 ≤ files.length) :
    (upload_zip decode files store chat).2 =
      chat ++ [("user", multiMsg
        (fileTypesStrOf (files.any (fun f => isZipUpload f))
          (files.any (fun f => !isZipUpload f)))
        files.length
        ((files.map (fun f => (extractArtifact decode f).length)).sum)
        (fileListOf files))]
    ∧ (upload_zip decode files store chat).2.length = chat.length + 1 := by
  match files, h with
  | f1 :: f2 :: rest, _ =>
    obtain ⟨h1, h2, h3, h4⟩ := uploadLoop_spec decode (f1 :: f2 :: rest)
      ⟨store, 0, 0, false, false⟩
    constructor
    · show (upload_zip decode (f1 :: f2 :: rest) store chat).2 = _
      simp only [upload_zip]
      rw [h1, h2, h3, h4]
      simp
    · show (upload_zip decode (f1 :: f2 :: rest) store chat).2.length = chat.length + 1
      simp [upload_zip]

/-- Witness for C6: one archive yielding three files together with one empty
archive reports 2 artifacts processed and 3 files extracted, in one message. -/
theorem spec_c6_witness :
    (upload_zip (fun _ => "")
      [⟨"/tmp/t.zip", [⟨"x.py", .ok []⟩, ⟨"y.py", .ok []⟩, ⟨"z.md", .error "e"⟩], .error "u"⟩,
       ⟨"/tmp/e.zip", [], .error "u"⟩] [] []).2 =
      [("user", multiMsg "ZIP files" 2 3 "- t.zip\n- e.zip")] := by
  have h := (spec_c6 (fun _ => "")
    [⟨"/tmp/t.zip", [⟨"x.py", .ok []⟩, ⟨"y.py", .ok []⟩, ⟨"z.md", .error "e"⟩], .error "u"⟩,
     ⟨"/tmp/e.zip", [], .error "u"⟩] [] [] (by decide)).1
  exact h

/-- C7: `reset_app` empties both the file store and the session store and
returns a transcript of exactly one assistant-role welcome entry, regardless
of the prior state and transcript; being a pure function of the model, no
partial-reset state is observable. -/
theorem spec_c7 (st : AppState) (chat : Chat) :
    (reset_app st chat).1.extractedFiles = []
    ∧ (reset_app st chat).1.chatSessions = []
    ∧ (reset_app st chat).2 = [("assistant", resetReply)]
    ∧ (reset_app st chat).2.length = 1
    ∧ ∀ m ∈ (reset_app st chat).2, m.1 = "assistant" := by
  refine ⟨rfl, rfl, rfl, rfl, ?_⟩
  intro m hm
  simp only [reset_app, List.mem_singleton] at hm
  rw [hm]

/-- C8: on a transcript with no user-role entry (in particular an empty one),
`respond` appends one assistant guidance entry and terminates: the state is
unchanged, nothing is yielded, no session is created, no seed is sent, and no
model call is made; on the empty transcript the result has length exactly 1. -/
theorem spec_c8 (stream : List Chunk) (st : AppState) (chat : Chat)
    (h : chat.all (fun m => !(m.1 == "user")) = true) :
    send_to_gemini stream st chat =
      ⟨chat ++ [("assistant", noInputReply)], st, [], false, none, false⟩
    ∧ (send_to_gemini stream st []).chat.length = 1 := by
  exact ⟨send_to_gemini_of_no_user stream st chat h, rfl⟩

/-- Witness for C8 on the empty transcript and on an assistant-only transcript. -/
theorem spec_c8_witness :
    send_to_gemini [] ⟨[], [], 0⟩ [("assistant", "hi")] =
      ⟨[("assistant", "hi"), ("assistant", noInputReply)], ⟨[], [], 0⟩, [], false, none, false⟩
    ∧ (send_to_gemini [] ⟨[], [], 0⟩ []).chat.length = 1 := by
  have h := spec_c8 [] ⟨[], [], 0⟩ [("assistant", "hi")] (by decide)
  exact ⟨h.1, h.2⟩

/-- C9: re-ingesting a single artifact under a name already present in the
store, with a non-empty extraction result, replaces the prior entry entirely
(the stored value for that name is exactly the new extraction, not a merge)
and leaves every other name's entry unchanged. -/
theorem spec_c9 (decode : List Nat → String) (f : UploadedFile) (st : FileStore)
    (chat : Chat) (n : String) (old : FileSet)
    (hn : basename f.path = n)
    (_hold : dictGet st n = some old)
    (hne : (extractArtifact decode f).isEmpty = false) :
    (upload_zip decode [f] st chat).1 = dictInsert st n (extractArtifact decode f)
    ∧ dictGet (upload_zip decode [f] st chat).1 n = some (extractArtifact decode f)
    ∧ ∀ k2, k2 ≠ n → dictGet (upload_zip decode [f] st chat).1 k2 = dictGet st k2 := by
  have hz : (upload_zip decode [f] st chat).1 = dictInsert st n (extractArtifact decode f) := by
    simp [upload_zip, hne, hn]
  refine ⟨hz, ?_, ?_⟩
  · rw [hz]
    exact dictGet_dictInsert_self st n _
  · intro k2 hk2
    rw [hz]
    exact dictGet_dictInsert_ne st n k2 _ hk2

/-- Witness for C9: re-uploading `a.py` over a prior entry replaces its file
set and leaves the other artifact untouched. -/
theorem spec_c9_witness :
    dictGet (upload_zip (fun _ => "new") [⟨"a.py", [], .ok [104]⟩]
        [("a.py", [("a.py", "old")]), ("b.py", [("b.py", "keep")])] []).1 "a.py" =
      some [("a.py", "new")]
    ∧ dictGet (upload_zip (fun _ => "new") [⟨"a.py", [], .ok [104]⟩]
        [("a.py", [("a.py", "old")]), ("b.py", [("b.py", "keep")])] []).1 "b.py" =
      some [("b.py", "keep")] := by
  have h := spec_c9 (fun _ => "new") ⟨"a.py", [], .ok [104]⟩
    [("a.py", [("a.py", "old")]), ("b.py", [("b.py", "keep")])] [] "a.py"
    [("a.py", "old")] rfl (by decide) rfl
  exact ⟨h.2.1, h.2.2 "b.py" (by decide)⟩

/-- C10: upload-summary recognition is by substring containment, not exact
template match: an ordinary question that merely mentions the marker
`"📦 ZIP file uploaded:"` (and is not itself an upload summary) triggers the
canned reply and no model call, no session creation, and no seed send. -/
theorem spec_c10 :
    pyIn "📦 ZIP file uploaded:" "What does 📦 ZIP file uploaded: mean in this app?" = true
    ∧ "What does 📦 ZIP file uploaded: mean in this app?" ≠ "📦 ZIP file uploaded:"
    ∧ send_to_gemini [] ⟨[], [], 0⟩
        [("user", "What does 📦 ZIP file uploaded: mean in this app?")] =
      ⟨[("user", "What does 📦 ZIP file uploaded: mean in this app?"),
        ("assistant", uploadCannedReply)], ⟨[], [], 0⟩, [], false, none, false⟩ := by
  exact ⟨rfl, by decide, rfl⟩
